import Mathlib

/-!
Shallow embedding of the proxy-aware ownership resolver of
`mcp_blockchain/server.py` (repository `mcp-blockchain`).

The remote JSON-RPC world (endpoint liveness, `eth_getStorageAt`,
`eth_call`) is modelled by an oracle record; every embedded operation
additionally returns the list of remote events it performed, so that
claims about "no network call", call order and call targets are
provable.  Machine integers are `Nat` with explicit `% 2 ^ 64` where the
Keccak permutation overflows; byte strings are `List Nat`.
-/

set_option maxRecDepth 100000

namespace MCPBlockchain

/-! ### Keccak-256 (as used by `Web3.keccak` / EIP-55 checksumming)

Keccak-256 with the original multi-rate padding byte `0x01` (not SHA3's
`0x06`), rate 136 bytes, 24 rounds.  Lanes are 64-bit words represented
as `Nat`, state is a list of 25 lanes, lane `(x, y)` at index `x + 5*y`.
-/

def rotl64 (x n : Nat) : Nat :=
  ((x <<< n) ||| (x >>> (64 - n))) % (2 ^ 64)

def keccakRC : List Nat :=
  [0x0000000000000001, 0x0000000000008082, 0x800000000000808a, 0x8000000080008000,
   0x000000000000808b, 0x0000000080000001, 0x8000000080008081, 0x8000000000008009,
   0x000000000000008a, 0x0000000000000088, 0x0000000080008009, 0x000000008000000a,
   0x000000008000808b, 0x800000000000008b, 0x8000000000008089, 0x8000000000008003,
   0x8000000000008002, 0x8000000000000080, 0x000000000000800a, 0x800000008000000a,
   0x8000000080008081, 0x8000000000008080, 0x0000000080000001, 0x8000000080008008]

/-- Rotation offsets `r[x][y]` of the ρ step, row `x`, column `y`. -/
def rhoTable : List (List Nat) :=
  [[0, 36, 3, 41, 18], [1, 44, 10, 45, 2], [62, 6, 43, 15, 61],
   [28, 55, 25, 21, 56], [27, 20, 39, 8, 14]]

def rhoOff (x y : Nat) : Nat :=
  (rhoTable.getD x []).getD y 0

def laneAt (s : List Nat) (x y : Nat) : Nat :=
  s.getD (x % 5 + 5 * (y % 5)) 0

def thetaStep (s : List Nat) : List Nat :=
  let c := (List.range 5).map fun x =>
    laneAt s x 0 ^^^ laneAt s x 1 ^^^ laneAt s x 2 ^^^ laneAt s x 3 ^^^ laneAt s x 4
  let d := (List.range 5).map fun x =>
    c.getD ((x + 4) % 5) 0 ^^^ rotl64 (c.getD ((x + 1) % 5) 0) 1
  (List.range 25).map fun i => s.getD i 0 ^^^ d.getD (i % 5) 0

def rhoPiStep (s : List Nat) : List Nat :=
  (List.range 25).map fun i =>
    let xO := i % 5
    let yO := i / 5
    let x := (xO + 3 * yO) % 5
    let y := xO
    rotl64 (laneAt s x y) (rhoOff x y)

def chiStep (s : List Nat) : List Nat :=
  (List.range 25).map fun i =>
    let x := i % 5
    let y := i / 5
    laneAt s x y ^^^ ((laneAt s (x + 1) y ^^^ (2 ^ 64 - 1)) &&& laneAt s (x + 2) y)

def iotaStep (rc : Nat) (s : List Nat) : List Nat :=
  match s with
  | [] => []
  | a :: rest => (a ^^^ rc) :: rest

def keccakF (s : List Nat) : List Nat :=
  keccakRC.foldl (fun st rc => iotaStep rc (chiStep (rhoPiStep (thetaStep st)))) s

/-- A 64-bit lane from up to 8 little-endian bytes. -/
def leLane (bs : List Nat) : Nat :=
  bs.foldr (fun b acc => acc * 256 + b) 0

/-- Absorb one 136-byte block into the state and permute. -/
def absorbBlock (s : List Nat) (b : List Nat) : List Nat :=
  keccakF ((List.range 25).map fun i => s.getD i 0 ^^^ leLane ((b.drop (8 * i)).take 8))

/-- Original Keccak multi-rate padding `0x01 … 0x80` to a multiple of 136. -/
def pad101 (msg : List Nat) : List Nat :=
  let p := 136 - msg.length % 136
  if p = 1 then msg ++ [0x81]
  else msg ++ [0x01] ++ List.replicate (p - 2) 0 ++ [0x80]

def splitBlocks : Nat → List Nat → List (List Nat)
  | 0, _ => []
  | _ + 1, [] => []
  | fuel + 1, l => l.take 136 :: splitBlocks fuel (l.drop 136)

/-- Keccak-256 of a byte string, as 32 output bytes. -/
def keccak256 (msg : List Nat) : List Nat :=
  let padded := pad101 msg
  let s := (splitBlocks padded.length padded).foldl absorbBlock (List.replicate 25 0)
  (List.range 32).map fun i => s.getD (i / 8) 0 >>> (8 * (i % 8)) % 256

def textBytes (s : String) : List Nat :=
  s.data.map Char.toNat

def keccakText (s : String) : List Nat :=
  keccak256 (textBytes s)

def natOfBytesBE (bs : List Nat) : Nat :=
  bs.foldl (fun a b => a * 256 + b) 0

/-- `int(Web3.keccak(text="eip1967.proxy.implementation").hex(), 16) - 1`
(from `get_eip1967_impl`, computed per call in the source). -/
def eip1967_slot : Nat :=
  natOfBytesBE (keccakText "eip1967.proxy.implementation") - 1

example : natOfBytesBE (keccak256 []) =
    0xc5d2460186f7233c927e7db2dcc703c0e500b653ca82273b7bfad8045d85a470 := by decide

/-! ### Hex strings and addresses (model of `eth_utils` / `Web3` helpers)

Inputs reaching the address helpers are Python `str` values (the MCP tool
arguments are typed `str`), so the `bytes`-typed "binary address"
branch of `eth_utils.is_address` can never fire and is not modelled.
All strings involved are ASCII.
-/

def hexDigitChar (n : Nat) : Char :=
  if n < 10 then Char.ofNat (48 + n) else Char.ofNat (87 + n)

def byteHexChars (b : Nat) : List Char :=
  [hexDigitChar (b / 16 % 16), hexDigitChar (b % 16)]

/-- `bytes.hex()`: lowercase hex characters of a byte string. -/
def bytesHexChars (bs : List Nat) : List Char :=
  bs.foldr (fun b acc => byteHexChars b ++ acc) []

/-- The hex digits (nibbles) of a byte string, most significant first. -/
def bytesNibbles (bs : List Nat) : List Nat :=
  bs.foldr (fun b acc => b / 16 % 16 :: b % 16 :: acc) []

def isHexDigitChar (c : Char) : Bool :=
  (48 ≤ c.toNat && c.toNat ≤ 57) || (97 ≤ c.toNat && c.toNat ≤ 102) ||
    (65 ≤ c.toNat && c.toNat ≤ 70)

def hexCharVal (c : Char) : Nat :=
  if c.toNat ≤ 57 then c.toNat - 48
  else if c.toNat ≤ 70 then c.toNat - 55
  else c.toNat - 87

def hexCharsVal (l : List Char) : Nat :=
  l.foldl (fun a c => a * 16 + hexCharVal c) 0

/-- `remove_0x_prefix`: strip a leading `0x` / `0X`. -/
def strip0x : List Char → List Char
  | '0' :: 'x' :: rest => rest
  | '0' :: 'X' :: rest => rest
  | l => l

/-- Python `int(s, 16)` on the strings that occur here: an optional
`0x`/`0X` prefix followed by at least one hex digit; `none` models the
`ValueError` it raises otherwise. -/
def int16? (s : String) : Option Nat :=
  let l := strip0x s.data
  if l ≠ [] ∧ l.all isHexDigitChar then some (hexCharsVal l) else none

/-- ASCII `str.lower` on the characters occurring in hex strings. -/
def lowerChar (c : Char) : Char :=
  if 65 ≤ c.toNat ∧ c.toNat ≤ 90 then Char.ofNat (c.toNat + 32) else c

/-- ASCII `str.upper` on the characters occurring in hex strings. -/
def upperChar (c : Char) : Char :=
  if 97 ≤ c.toNat ∧ c.toNat ≤ 122 then Char.ofNat (c.toNat - 32) else c

/-- `eth_utils.is_hex_address`: an optionally `0x`-prefixed string of
exactly 40 hex digits. -/
def is_hex_address (l : List Char) : Bool :=
  let u := strip0x l
  u.length == 40 && u.all isHexDigitChar

/-- `eth_utils.is_checksum_formatted_address`: a hex address whose digit
part is neither all-lowercase nor all-uppercase. -/
def is_checksum_formatted (l : List Char) : Bool :=
  is_hex_address l &&
    (let u := strip0x l
     !(u == u.map lowerChar) && !(u == u.map upperChar))

/-- `eth_utils.to_checksum_address` (also `Web3.to_checksum_address`):
normalize to `0x` + lowercase 40 hex digits, then upper-case every digit
whose corresponding nibble of `keccak256(lowercase_hex_without_0x)` is
`≥ 8`.  `none` models the `ValueError` raised on malformed input. -/
def to_checksum_address (s : String) : Option String :=
  if ((strip0x s.data).map lowerChar).length == 40 &&
      ((strip0x s.data).map lowerChar).all isHexDigitChar then
    some (String.mk ('0' :: 'x' ::
      List.zipWith (fun h c => if 8 ≤ h then upperChar c else c)
        (bytesNibbles (keccak256 ((((strip0x s.data).map lowerChar)).map Char.toNat)))
        ((strip0x s.data).map lowerChar)))
  else none

/-- `eth_utils.is_checksum_address`. -/
def is_checksum_address (s : String) : Bool :=
  is_hex_address s.data && (to_checksum_address s == some s)

/-- `eth_utils.is_address` on a `str` argument. -/
def is_address (s : String) : Bool :=
  if is_checksum_formatted s.data then is_checksum_address s else is_hex_address s.data

/-- `to_checksum` from `server.py`; `none` models the re-raised
`ValueError("Invalid Ethereum address format")`. -/
def to_checksum (addr : String) : Option String :=
  to_checksum_address addr

/-! ### The remote world: oracle and event traces

`conn n` is the outcome of the `n`-th liveness check of the run (a
constructor failure and a `False` from `is_connected` both just advance
the endpoint loop, so a single boolean outcome per check is faithful);
`storage` and `ethCall` give each remote read's outcome, `.error`
modelling a raised exception with its message.
-/

inductive Ev where
  | liveCheck (url : String) (ok : Bool)
  | storageRead (addr : String) (slot : Nat)
  | ethCall (addr : String) (method : String)
  | sleep (seconds : Nat)
  deriving DecidableEq

structure ChainOracle where
  conn : Nat → Bool
  storage : String → Nat → Except String (List Nat)
  ethCall : String → String → Except String String

def PUBLIC_RPCS : List String :=
  ["https://eth.llamarpc.com", "https://ethereum.publicnode.com",
   "https://eth-mainnet.public.blastapi.io", "https://cloudflare-eth.com"]

def DEFAULT_TIMEOUT : Nat := 30
def DEFAULT_MAX_RETRIES : Nat := 3

/-! ### `retry_on_failure`

The wrapped operation is an effectful function of the liveness-check
counter, returning its result, the new counter, and its event trace.
The wrapper additionally reports how many times it invoked the
operation.  `.error none` models Python's `raise last_exception` when
`last_exception` is still `None` (only reachable with `max_retries = 0`).
-/

def retryLoop {ε α : Type} (f : Nat → Except ε α × Nat × List Ev) (delay maxR : Nat) :
    List Nat → Option ε → Nat → Except (Option ε) α × Nat × List Ev × Nat
  | [], last, ctr => (.error last, ctr, [], 0)
  | attempt :: rest, _, ctr =>
    match f ctr with
    | (.ok a, c, ev) => (.ok a, c, ev, 1)
    | (.error e, c, ev) =>
      let sl := if attempt < maxR - 1 then [Ev.sleep (delay * (attempt + 1))] else []
      let r := retryLoop f delay maxR rest (some e) c
      (r.1, r.2.1, ev ++ sl ++ r.2.2.1, r.2.2.2 + 1)

def retry_on_failure {ε α : Type} (max_retries delay : Nat)
    (f : Nat → Except ε α × Nat × List Ev) (ctr : Nat) :
    Except (Option ε) α × Nat × List Ev × Nat :=
  retryLoop f delay max_retries (List.range max_retries) none ctr

/-! ### `get_web3` -/

def try_endpoints (o : ChainOracle) : List String → Nat → Option String × Nat × List Ev
  | [], ctr => (none, ctr, [])
  | url :: rest, ctr =>
    if o.conn ctr then (some url, ctr + 1, [.liveCheck url true])
    else
      let r := try_endpoints o rest (ctr + 1)
      (r.1, r.2.1, .liveCheck url false :: r.2.2)

/-- One sweep of the endpoint pool (the undecorated body of `get_web3`);
the returned transport handle is the chosen endpoint's URL. -/
def get_web3_once (o : ChainOracle) (ctr : Nat) : Except String String × Nat × List Ev :=
  match try_endpoints o PUBLIC_RPCS ctr with
  | (some url, c, ev) => (.ok url, c, ev)
  | (none, c, ev) => (.error "Unable to connect to any Ethereum RPC endpoint", c, ev)

/-- `get_web3` as decorated in the source: `retry_on_failure()` around the
whole pool sweep. -/
def get_web3 (o : ChainOracle) (ctr : Nat) :
    Except (Option String) String × Nat × List Ev × Nat :=
  retry_on_failure DEFAULT_MAX_RETRIES 1 (get_web3_once o) ctr

/-! ### Storage-slot readers -/

/-- `"0x" + raw.hex()[-40:]` — the low-order 20 bytes of a raw storage
value, rendered as a `0x`-prefixed lowercase hex string. -/
def extractLow20Hex (raw : List Nat) : String :=
  let hx := bytesHexChars raw
  String.mk ('0' :: 'x' :: hx.drop (hx.length - 40))

/-- The shared acceptance test `is_address(a) and int(a, 16) != 0`
followed by `to_checksum(a)`; `none` covers the failed test and any
exception raised inside it (both `return None` / continue paths). -/
def accept_nonzero_address (a : String) : Option String :=
  if is_address a then
    match int16? a with
    | some n => if n ≠ 0 then to_checksum a else none
    | none => none
  else none

/-- Undecorated body of `read_owner_slot`: the `try`/`except` returns
`None` on any storage-read exception, so the body never fails. -/
def read_owner_slot_once (o : ChainOracle) (addr : String) (ctr : Nat) :
    Except String (Option String) × Nat × List Ev :=
  match o.storage addr 0 with
  | .error _ => (.ok none, ctr, [.storageRead addr 0])
  | .ok raw => (.ok (accept_nonzero_address (extractLow20Hex raw)), ctr, [.storageRead addr 0])

def read_owner_slot (o : ChainOracle) (addr : String) (ctr : Nat) :
    Except (Option String) (Option String) × Nat × List Ev × Nat :=
  retry_on_failure DEFAULT_MAX_RETRIES 1 (read_owner_slot_once o addr) ctr

/-- Undecorated body of `get_eip1967_impl`: reads the EIP-1967
implementation slot; the `try`/`except` prints and returns `None` on any
exception, so the body never fails. -/
def get_eip1967_impl_once (o : ChainOracle) (proxy : String) (ctr : Nat) :
    Except String (Option String) × Nat × List Ev :=
  match o.storage proxy eip1967_slot with
  | .error _ => (.ok none, ctr, [.storageRead proxy eip1967_slot])
  | .ok raw =>
    (.ok (accept_nonzero_address (extractLow20Hex raw)), ctr, [.storageRead proxy eip1967_slot])

def get_eip1967_impl (o : ChainOracle) (proxy : String) (ctr : Nat) :
    Except (Option String) (Option String) × Nat × List Ev × Nat :=
  retry_on_failure DEFAULT_MAX_RETRIES 1 (get_eip1967_impl_once o proxy) ctr

/-! ### The owner-method probe loop -/

def probe_methods : List String := ["owner", "getOwner", "admin", "getAdmin"]

/-- The probe loop of `check_contract_owner` (identical in the proxy and
non-proxy branches up to the result-line wording, which the caller
supplies): try each method in order; a raising call or a failed
acceptance test continues with the next method; `break` on the first
accepted result. -/
def probe_loop (o : ChainOracle) (target : String) :
    List String → Option (String × String) × List Ev
  | [] => (none, [])
  | m :: rest =>
    match o.ethCall target m with
    | .error _ =>
      let r := probe_loop o target rest
      (r.1, .ethCall target m :: r.2)
    | .ok owner =>
      match accept_nonzero_address owner with
      | some cs => (some (m, cs), [.ethCall target m])
      | none =>
        let r := probe_loop o target rest
        (r.1, .ethCall target m :: r.2)

/-! ### `check_contract_owner`

The aggregator.  The second component of the result is the event trace
of the whole run.  The `"Error checking contract owner: " ++ …` branches
embed the message of an exception reaching the outer `except` handler
(`f"Error checking contract owner: {str(e)}"`); for the storage readers
these branches are provably unreachable since their bodies never fail.
-/

def check_contract_owner (o : ChainOracle) (address : String) : String × List Ev :=
  if is_address address = false then ("Invalid contract address.", [])
  else
    match get_web3 o 0 with
    | (.error e, _, ev0, _) => ("Error checking contract owner: " ++ e.getD "", ev0)
    | (.ok w3, c1, ev0, _) =>
      if o.conn c1 = false then
        ("Error: Cannot connect to Ethereum network.", ev0 ++ [.liveCheck w3 false])
      else
        let ev1 := ev0 ++ [Ev.liveCheck w3 true]
        match to_checksum address with
        | none => ("Error checking contract owner: Invalid Ethereum address format", ev1)
        | some proxy =>
          match read_owner_slot o proxy (c1 + 1) with
          | (.error e, _, ev2, _) =>
            ("Error checking contract owner: " ++ e.getD "", ev1 ++ ev2)
          | (.ok proxy_owner, c2, ev2, _) =>
            let res1 : List String :=
              match proxy_owner with
              | some po => ["Proxy @ " ++ proxy ++ " owner (slot 0): " ++ po]
              | none => []
            match get_eip1967_impl o proxy c2 with
            | (.error e, _, ev3, _) =>
              ("Error checking contract owner: " ++ e.getD "", ev1 ++ ev2 ++ ev3)
            | (.ok implOpt, c3, ev3, _) =>
              match implOpt with
              | some impl =>
                let res2 := res1 ++ ["Implementation contract: " ++ impl]
                match read_owner_slot o impl c3 with
                | (.error e, _, ev4, _) =>
                  ("Error checking contract owner: " ++ e.getD "", ev1 ++ ev2 ++ ev3 ++ ev4)
                | (.ok impl_owner, _, ev4, _) =>
                  let res3 := res2 ++
                    (match impl_owner with
                     | some po2 => ["Implementation @ " ++ impl ++ " owner (slot 0): " ++ po2]
                     | none => [])
                  let pr := probe_loop o impl probe_methods
                  let res4 := res3 ++
                    (match pr.1 with
                     | some mcs => ["Implementation owner (via `" ++ mcs.1 ++ "()`): " ++ mcs.2]
                     | none => [])
                  let ev := ev1 ++ ev2 ++ ev3 ++ ev4 ++ pr.2
                  if res4 = [] then
                    ("Contract does not implement an Ownable interface or owner could not be read.",
                     ev)
                  else (String.intercalate "\n" res4, ev)
              | none =>
                let pr := probe_loop o proxy probe_methods
                let res4 := res1 ++
                  (match pr.1 with
                   | some mcs => ["Contract owner (via `" ++ mcs.1 ++ "()`): " ++ mcs.2]
                   | none => [])
                let ev := ev1 ++ ev2 ++ ev3 ++ pr.2
                if res4 = [] then
                  ("Contract does not implement an Ownable interface or owner could not be read.",
                   ev)
                else (String.intercalate "\n" res4, ev)

/-! ### Helper views and concrete oracles used in the statements below -/

/-- The value `read_owner_slot` computes (its body is failure-free). -/
def ownerSlotValue (o : ChainOracle) (addr : String) : Option String :=
  match o.storage addr 0 with
  | .error _ => none
  | .ok raw => accept_nonzero_address (extractLow20Hex raw)

/-- The value `get_eip1967_impl` computes (its body is failure-free). -/
def eipImplValue (o : ChainOracle) (proxy : String) : Option String :=
  match o.storage proxy eip1967_slot with
  | .error _ => none
  | .ok raw => accept_nonzero_address (extractLow20Hex raw)

/-- Outcome of probing one owner method: the checksummed result if the
call succeeds and passes the acceptance test, `none` otherwise. -/
def probe_result (o : ChainOracle) (target m : String) : Option String :=
  match o.ethCall target m with
  | .error _ => none
  | .ok owner => accept_nonzero_address owner

def isEthCallEv : Ev → Bool
  | .ethCall _ _ => true
  | _ => false

/-- A transport stub that fails every remote interaction. -/
def stubOracle : ChainOracle where
  conn := fun _ => false
  storage := fun _ _ => .error "stub"
  ethCall := fun _ _ => .error "stub"

/-! ### Character-level facts -/

theorem charToNat_ofNat (m : Nat) (h : m < 55296) : (Char.ofNat m).toNat = m := by
  have hv : Nat.isValidChar m := Or.inl h
  simp [Char.ofNat, hv, Char.ofNatAux, Char.toNat, UInt32.toNat, UInt32.ofNatCore]

theorem lowerChar_not_upper (c : Char) :
    ¬(65 ≤ (lowerChar c).toNat ∧ (lowerChar c).toNat ≤ 90) := by
  unfold lowerChar
  by_cases h : 65 ≤ c.toNat ∧ c.toNat ≤ 90
  · rw [if_pos h, charToNat_ofNat _ (by omega)]
    omega
  · rw [if_neg h]
    exact h

theorem lowerChar_fix (d : Char) (hnu : ¬(65 ≤ d.toNat ∧ d.toNat ≤ 90)) :
    lowerChar d = d := by
  unfold lowerChar
  rw [if_neg hnu]

theorem lower_upper_cancel (d : Char)
    (hnu : ¬(65 ≤ d.toNat ∧ d.toNat ≤ 90)) : lowerChar (upperChar d) = d := by
  unfold upperChar
  by_cases h97 : 97 ≤ d.toNat ∧ d.toNat ≤ 122
  · rw [if_pos h97]
    unfold lowerChar
    have ht : (Char.ofNat (d.toNat - 32)).toNat = d.toNat - 32 :=
      charToNat_ofNat _ (by omega)
    rw [if_pos (by rw [ht]; omega), ht]
    have h32 : d.toNat - 32 + 32 = d.toNat := by omega
    rw [h32, Char.ofNat_toNat]
  · rw [if_neg h97]
    exact lowerChar_fix d hnu

theorem hexDigitChar_spec (n : Nat) (h : n < 16) :
    isHexDigitChar (hexDigitChar n) = true ∧
    ¬(65 ≤ (hexDigitChar n).toNat ∧ (hexDigitChar n).toNat ≤ 90) ∧
    hexCharVal (hexDigitChar n) = n := by
  unfold hexDigitChar
  by_cases h10 : n < 10
  · rw [if_pos h10]
    have ht := charToNat_ofNat (48 + n) (by omega)
    refine ⟨?_, ?_, ?_⟩
    · simp only [isHexDigitChar, ht]
      simp only [Bool.or_eq_true, Bool.and_eq_true, decide_eq_true_eq]
      omega
    · rw [ht]; omega
    · simp only [hexCharVal, ht]
      rw [if_pos (by omega)]
      omega
  · rw [if_neg h10]
    have ht := charToNat_ofNat (87 + n) (by omega)
    refine ⟨?_, ?_, ?_⟩
    · simp only [isHexDigitChar, ht]
      simp only [Bool.or_eq_true, Bool.and_eq_true, decide_eq_true_eq]
      omega
    · rw [ht]; omega
    · simp only [hexCharVal, ht]
      rw [if_neg (by omega), if_neg (by omega)]
      omega

/-! ### Behaviour of `retry_on_failure` -/

theorem retryLoop_count_le {ε α : Type} (f : Nat → Except ε α × Nat × List Ev)
    (delay maxR : Nat) :
    ∀ (l : List Nat) (last : Option ε) (ctr : Nat),
      (retryLoop f delay maxR l last ctr).2.2.2 ≤ l.length := by
  intro l
  induction l with
  | nil => intro last ctr; simp [retryLoop]
  | cons a rest ih =>
    intro last ctr
    simp only [retryLoop]
    match hf : f ctr with
    | (.ok v, c, ev) => simp [hf]
    | (.error e, c, ev) =>
      simp only [hf, List.length_cons]
      have := ih (some e) c
      omega

theorem retry_first_ok {ε α : Type} (m delay ctr : Nat)
    (f : Nat → Except ε α × Nat × List Ev) (a : α) (c : Nat) (ev : List Ev)
    (hm : m ≠ 0) (hf : f ctr = (.ok a, c, ev)) :
    retry_on_failure m delay f ctr = (.ok a, c, ev, 1) := by
  obtain ⟨n, rfl⟩ := Nat.exists_eq_succ_of_ne_zero hm
  rw [retry_on_failure, List.range_succ_eq_map]
  simp [retryLoop, hf]

theorem retryLoop_all_fail {ε α : Type} (f : Nat → Except ε α × Nat × List Ev)
    (err : Nat → ε) (g : Nat → List Ev) (delay maxR : Nat)
    (hf : ∀ n, f n = (.error (err n), n + 1, g n)) :
    ∀ (j k ctr : Nat) (last : Option ε), 1 ≤ j →
      retryLoop f delay maxR (List.range' k j) last ctr =
        (.error (some (err (ctr + j - 1))), ctr + j,
         ((List.range' k j).map fun t =>
           g (ctr + (t - k)) ++
             if t < maxR - 1 then [Ev.sleep (delay * (t + 1))] else []).flatten,
         j) := by
  intro j
  induction j with
  | zero => omega
  | succ n ih =>
    intro k ctr last h1
    rw [List.range'_succ]
    simp only [retryLoop, hf ctr]
    cases n with
    | zero =>
      simp [retryLoop, List.range'_succ]
    | succ m =>
      rw [ih (k + 1) (ctr + 1) (some (err ctr)) (by omega)]
      have hmap : ((List.range' (k + 1) (m + 1)).map fun t =>
          g (ctr + 1 + (t - (k + 1))) ++
            if t < maxR - 1 then [Ev.sleep (delay * (t + 1))] else []) =
          ((List.range' (k + 1) (m + 1)).map fun t =>
          g (ctr + (t - k)) ++
            if t < maxR - 1 then [Ev.sleep (delay * (t + 1))] else []) := by
        apply List.map_congr_left
        intro t ht
        have htk : k + 1 ≤ t := (List.mem_range'_1.mp ht).1
        have : ctr + 1 + (t - (k + 1)) = ctr + (t - k) := by omega
        rw [this]
      rw [hmap]
      have h2 : ctr + 1 + (m + 1) - 1 = ctr + (m + 1 + 1) - 1 := by omega
      have h3 : ctr + 1 + (m + 1) = ctr + (m + 1 + 1) := by omega
      simp [h2, h3, List.map_cons, List.flatten_cons, Nat.sub_self, List.append_assoc]

/-! ### Bodies of the storage readers never fail -/

theorem read_owner_slot_once_eq (o : ChainOracle) (addr : String) (ctr : Nat) :
    read_owner_slot_once o addr ctr =
      (.ok (ownerSlotValue o addr), ctr, [Ev.storageRead addr 0]) := by
  unfold read_owner_slot_once ownerSlotValue
  cases o.storage addr 0 <;> rfl

theorem get_eip1967_impl_once_eq (o : ChainOracle) (proxy : String) (ctr : Nat) :
    get_eip1967_impl_once o proxy ctr =
      (.ok (eipImplValue o proxy), ctr, [Ev.storageRead proxy eip1967_slot]) := by
  unfold get_eip1967_impl_once eipImplValue
  cases o.storage proxy eip1967_slot <;> rfl

/-- C10: `get_eip1967_impl` and `read_owner_slot` are total at their call
boundary: for every oracle behaviour (including a raising storage read)
they return `.ok` — internal failures become the absent value `None` —
and the `retry_on_failure` decorator around each of them observes no
failure, performs no sleep, and invokes the body exactly once, so the
trace is exactly one storage read per call. -/
theorem c10_readers_total_single_read (o : ChainOracle) (addr : String) (ctr : Nat) :
    get_eip1967_impl o addr ctr =
      (.ok (eipImplValue o addr), ctr, [Ev.storageRead addr eip1967_slot], 1) ∧
    read_owner_slot o addr ctr =
      (.ok (ownerSlotValue o addr), ctr, [Ev.storageRead addr 0], 1) ∧
    (∀ e, o.storage addr eip1967_slot = .error e → eipImplValue o addr = none) ∧
    (∀ e, o.storage addr 0 = .error e → ownerSlotValue o addr = none) := by
  refine ⟨?_, ?_, ?_, ?_⟩
  · exact retry_first_ok _ _ _ _ _ _ _ (by decide) (get_eip1967_impl_once_eq o addr ctr)
  · exact retry_first_ok _ _ _ _ _ _ _ (by decide) (read_owner_slot_once_eq o addr ctr)
  · intro e he
    unfold eipImplValue
    rw [he]
  · intro e he
    unfold ownerSlotValue
    rw [he]

theorem c10_witness :
    get_eip1967_impl stubOracle "0xtarget" 7 =
      (.ok (eipImplValue stubOracle "0xtarget"), 7,
       [Ev.storageRead "0xtarget" eip1967_slot], 1) ∧
    eipImplValue stubOracle "0xtarget" = none :=
  ⟨(c10_readers_total_single_read stubOracle "0xtarget" 7).1,
   (c10_readers_total_single_read stubOracle "0xtarget" 7).2.2.1 "stub" rfl⟩

/-- C6: `retry_on_failure` invokes the wrapped operation at most
`max_retries` times; when every attempt fails it makes exactly
`max_retries` attempts, sleeps `delay * attempt_number` after each
failed attempt except the last (`attempt_number` starting at 1), and
propagates the final attempt's error unmodified (the `some` wrapper is
only this embedding's encoding of Python's `raise last_exception`,
which re-raises that very exception object). -/
theorem c6_retry_policy {ε α : Type} (f : Nat → Except ε α × Nat × List Ev)
    (err : Nat → ε) (g : Nat → List Ev) (m delay ctr : Nat)
    (hm : 1 ≤ m) (hf : ∀ n, f n = (.error (err n), n + 1, g n)) :
    (∀ (f2 : Nat → Except ε α × Nat × List Ev) (c2 : Nat),
      (retry_on_failure m delay f2 c2).2.2.2 ≤ m) ∧
    retry_on_failure m delay f ctr =
      (.error (some (err (ctr + m - 1))), ctr + m,
       ((List.range m).map fun t =>
         g (ctr + t) ++ if t < m - 1 then [Ev.sleep (delay * (t + 1))] else []).flatten,
       m) := by
  constructor
  · intro f2 c2
    have h := retryLoop_count_le f2 delay m (List.range m) none c2
    simpa [retry_on_failure] using h
  · rw [retry_on_failure, List.range_eq_range',
        retryLoop_all_fail f err g delay m hf m 0 ctr none hm]
    simp

def cfAllFail (n : Nat) : Except String Unit × Nat × List Ev :=
  (.error (toString n), n + 1, [])

theorem c6_witness :
    (1 ≤ 3 ∧ ∀ n : Nat, cfAllFail n = (.error (toString n), n + 1, [])) ∧
    retry_on_failure 3 1 cfAllFail 0 =
      (.error (some "2"), 3, [Ev.sleep 1, Ev.sleep 2], 3) := by
  have h := c6_retry_policy cfAllFail toString (fun _ => []) 3 1 0 (by decide) (fun _ => rfl)
  refine ⟨⟨by decide, fun _ => rfl⟩, ?_⟩
  rw [h.2]
  rfl

/-- C1: for every input string that is not a syntactically valid
Ethereum address, `check_contract_owner` returns the invalid-address
failure with an empty remote-event trace — no liveness check
(`get_web3`), storage read, or `eth_call` is performed in that run. -/
theorem c1_invalid_address_no_network (o : ChainOracle) (a : String)
    (h : is_address a = false) :
    check_contract_owner o a = ("Invalid contract address.", []) := by
  simp [check_contract_owner, h]

theorem c1_witness :
    is_address "0xinvalid" = false ∧
    check_contract_owner stubOracle "0xinvalid" = ("Invalid contract address.", []) :=
  ⟨by decide, c1_invalid_address_no_network stubOracle "0xinvalid" (by decide)⟩

/-- C5 (as stated, false): the spec quotes the published EIP-1967
implementation-slot constant as `0x360894…d382bb`, which has only 63 hex
digits — the final digit `c` is missing — so the slot value computed by
the code does not equal the constant stated in the spec. -/
theorem c5_counterexample :
    eip1967_slot ≠
      0x360894a13ba1a3210667c828492db98dca3e2076cc3735a920a3ca505d382bb := by
  decide

/-- C5 amended: the EIP-1967 implementation slot used by the resolver
equals `keccak256("eip1967.proxy.implementation") - 1` as a 256-bit
integer, and that value is the published 64-hex-digit constant
`0x360894a13ba1a3210667c828492db98dca3e2076cc3735a920a3ca505d382bbc`. -/
theorem c5_slot_constant :
    eip1967_slot = natOfBytesBE (keccakText "eip1967.proxy.implementation") - 1 ∧
    eip1967_slot =
      0x360894a13ba1a3210667c828492db98dca3e2076cc3735a920a3ca505d382bbc :=
  ⟨rfl, by decide⟩

/-- An oracle whose liveness check fails on the very first probe and
succeeds on the second (and any later) probe of the run. -/
def cexConnOracle : ChainOracle where
  conn := fun n => n == 1
  storage := fun _ _ => .error "unreachable"
  ethCall := fun _ _ => .error "unreachable"

/-- C7 (as stated, false): the claim says the liveness check is retried
per the retry policy *bounded to a single endpoint* before the selector
moves to the next endpoint.  Against an oracle whose first liveness
check fails and whose second succeeds, per-endpoint retry would re-check
and return the first endpoint (`eth.llamarpc.com`) without ever touching
the second; the code instead retries around the *whole pool sweep*: it
advances to the second endpoint immediately and returns it, never
re-checking the first. -/
theorem c7_counterexample :
    get_web3 cexConnOracle 0 =
      (.ok "https://ethereum.publicnode.com", 2,
       [Ev.liveCheck "https://eth.llamarpc.com" false,
        Ev.liveCheck "https://ethereum.publicnode.com" true], 1) ∧
    ("https://ethereum.publicnode.com" : String) ≠ "https://eth.llamarpc.com" :=
  ⟨rfl, by decide⟩

/-- C7 amended: within one sweep the selector walks the pool in fixed
order and returns the first endpoint passing liveness, never trying
later endpoints after a success; the retry policy wraps the *whole*
sweep (not each single endpoint); with every liveness check failing, the
all-endpoints-unreachable error propagates only after all three sweeps
of the full pool (with the retry sleeps between sweeps). -/
theorem c7_transport_selector (o : ChainOracle) (ctr : Nat) :
    (∀ us1 u us2, (∀ i, i < us1.length → o.conn (ctr + i) = false) →
      o.conn (ctr + us1.length) = true →
      try_endpoints o (us1 ++ u :: us2) ctr =
        (some u, ctr + us1.length + 1,
         us1.map (fun v => Ev.liveCheck v false) ++ [Ev.liveCheck u true])) ∧
    get_web3 o ctr = retry_on_failure DEFAULT_MAX_RETRIES 1 (get_web3_once o) ctr ∧
    ((∀ n, o.conn n = false) →
      get_web3 o ctr =
        (.error (some "Unable to connect to any Ethereum RPC endpoint"), ctr + 12,
         PUBLIC_RPCS.map (fun v => Ev.liveCheck v false) ++ [Ev.sleep 1] ++
           PUBLIC_RPCS.map (fun v => Ev.liveCheck v false) ++ [Ev.sleep 2] ++
           PUBLIC_RPCS.map (fun v => Ev.liveCheck v false), 3)) := by
  refine ⟨?_, rfl, ?_⟩
  · intro us1
    induction us1 generalizing ctr with
    | nil =>
      intro u us2 _ hlive
      simp only [List.length_nil, Nat.add_zero] at hlive
      simp [try_endpoints, hlive]
    | cons v us1 ih =>
      intro u us2 hdead hlive
      have h0 : o.conn ctr = false := by simpa using hdead 0 (by simp)
      have hrec := ih (ctr + 1) u us2
        (fun i hi => by
          have := hdead (i + 1) (by simpa using Nat.succ_lt_succ hi)
          simpa [Nat.add_assoc, Nat.add_comm 1 i] using this)
        (by
          have heq2 : ctr + 1 + us1.length = ctr + (v :: us1).length := by
            simp [Nat.add_comm, Nat.add_assoc, Nat.add_left_comm]
          rw [heq2]
          exact hlive)
      simp only [List.cons_append, try_endpoints, h0, Bool.false_eq_true, if_false,
        List.append_eq]
      rw [hrec]
      simp only [Prod.mk.injEq, List.map_cons, List.cons_append, List.length_cons]
      refine ⟨trivial, by omega, trivial⟩
  · intro halldead
    have hsweep : ∀ (urls : List String) (c : Nat),
        try_endpoints o urls c =
          (none, c + urls.length, urls.map (fun v => Ev.liveCheck v false)) := by
      intro urls
      induction urls with
      | nil => intro c; simp [try_endpoints]
      | cons v rest ih =>
        intro c
        simp [try_endpoints, halldead, ih (c + 1)]
        omega
    have hone : ∀ c, get_web3_once o c =
        (.error "Unable to connect to any Ethereum RPC endpoint", c + 4,
         PUBLIC_RPCS.map (fun v => Ev.liveCheck v false)) := by
      intro c
      rw [get_web3_once, hsweep PUBLIC_RPCS c]
      rfl
    have hr : List.range 3 = [0, 1, 2] := by decide
    rw [get_web3, retry_on_failure]
    show retryLoop (get_web3_once o) 1 DEFAULT_MAX_RETRIES (List.range 3) none ctr = _
    rw [hr]
    simp only [retryLoop, hone, DEFAULT_MAX_RETRIES]
    norm_num

/-- An oracle whose only live endpoint is the third of the pool. -/
def thirdLiveOracle : ChainOracle where
  conn := fun n => n == 2
  storage := fun _ _ => .error "unreachable"
  ethCall := fun _ _ => .error "unreachable"

theorem c7_witness :
    thirdLiveOracle.conn 0 = false ∧ thirdLiveOracle.conn 1 = false ∧
    thirdLiveOracle.conn 2 = true ∧
    try_endpoints thirdLiveOracle PUBLIC_RPCS 0 =
      (some "https://eth-mainnet.public.blastapi.io", 3,
       [Ev.liveCheck "https://eth.llamarpc.com" false,
        Ev.liveCheck "https://ethereum.publicnode.com" false,
        Ev.liveCheck "https://eth-mainnet.public.blastapi.io" true]) ∧
    get_web3 stubOracle 5 =
      (.error (some "Unable to connect to any Ethereum RPC endpoint"), 17,
       PUBLIC_RPCS.map (fun v => Ev.liveCheck v false) ++ [Ev.sleep 1] ++
         PUBLIC_RPCS.map (fun v => Ev.liveCheck v false) ++ [Ev.sleep 2] ++
         PUBLIC_RPCS.map (fun v => Ev.liveCheck v false), 3) := by
  refine ⟨by decide, by decide, by decide, ?_, ?_⟩
  · have h := (c7_transport_selector thirdLiveOracle 0).1
      ["https://eth.llamarpc.com", "https://ethereum.publicnode.com"]
      "https://eth-mainnet.public.blastapi.io" ["https://cloudflare-eth.com"]
      (fun i hi => by
        match i, hi with
        | 0, _ => decide
        | 1, _ => decide)
      (by decide)
    exact h
  · exact (c7_transport_selector stubOracle 5).2.2 (fun _ => rfl)

/-! ### Facts about hex rendering and address acceptance -/

theorem bytesHexChars_cons (b : Nat) (bs : List Nat) :
    bytesHexChars (b :: bs) = byteHexChars b ++ bytesHexChars bs := rfl

theorem bytesHexChars_append (xs ys : List Nat) :
    bytesHexChars (xs ++ ys) = bytesHexChars xs ++ bytesHexChars ys := by
  induction xs with
  | nil => rfl
  | cons b bs ih => simp [bytesHexChars_cons, ih]

theorem bytesHexChars_length (bs : List Nat) :
    (bytesHexChars bs).length = 2 * bs.length := by
  induction bs with
  | nil => rfl
  | cons b rest ih => simp [bytesHexChars_cons, byteHexChars, ih]; omega

theorem bytesHexChars_mem (bs : List Nat) :
    ∀ c ∈ bytesHexChars bs, ∃ n, n < 16 ∧ c = hexDigitChar n := by
  induction bs with
  | nil => intro c hc; simp [bytesHexChars] at hc
  | cons b rest ih =>
    intro c hc
    rw [bytesHexChars_cons] at hc
    rcases List.mem_append.mp hc with h | h
    · simp only [byteHexChars, List.mem_cons, List.not_mem_nil, or_false] at h
      rcases h with rfl | rfl
      · exact ⟨b / 16 % 16, Nat.mod_lt _ (by omega), rfl⟩
      · exact ⟨b % 16, Nat.mod_lt _ (by omega), rfl⟩
    · exact ih c h

theorem strip0x_0x (l : List Char) : strip0x ('0' :: 'x' :: l) = l := rfl

theorem lowerHexString_all_hex (l : List Char)
    (hmem : ∀ c ∈ l, ∃ n, n < 16 ∧ c = hexDigitChar n) :
    l.all isHexDigitChar = true := by
  rw [List.all_eq_true]
  intro c hc
  obtain ⟨n, hn, rfl⟩ := hmem c hc
  exact (hexDigitChar_spec n hn).1

theorem lowerHexString_map_lower (l : List Char)
    (hmem : ∀ c ∈ l, ∃ n, n < 16 ∧ c = hexDigitChar n) :
    l.map lowerChar = l := by
  induction l with
  | nil => rfl
  | cons c rest ih =>
    obtain ⟨n, hn, rfl⟩ := hmem c (by simp)
    simp only [List.map_cons]
    rw [lowerChar_fix _ (hexDigitChar_spec n hn).2.1,
        ih (fun c hcm => hmem c (by simp [hcm]))]

/-- `is_address` accepts any `0x`-prefixed all-lowercase 40-hex-digit
string (as produced by the storage extraction). -/
theorem is_address_of_lower_hex40 (l : List Char) (hlen : l.length = 40)
    (hmem : ∀ c ∈ l, ∃ n, n < 16 ∧ c = hexDigitChar n) :
    is_address (String.mk ('0' :: 'x' :: l)) = true := by
  have hdata : (String.mk ('0' :: 'x' :: l)).data = '0' :: 'x' :: l := rfl
  have hlower : l.map lowerChar = l := lowerHexString_map_lower l hmem
  have hfmt : is_checksum_formatted ('0' :: 'x' :: l) = false := by
    simp [is_checksum_formatted, strip0x_0x, hlower]
  have hhex : is_hex_address ('0' :: 'x' :: l) = true := by
    unfold is_hex_address
    rw [strip0x_0x]
    simp [hlen, lowerHexString_all_hex l hmem]
  unfold is_address
  rw [hdata, hfmt]
  simp [hhex]

/-- `int(s, 16)` succeeds on such strings and returns the hex value. -/
theorem int16_of_lower_hex40 (l : List Char) (hlen : l.length = 40)
    (hmem : ∀ c ∈ l, ∃ n, n < 16 ∧ c = hexDigitChar n) :
    int16? (String.mk ('0' :: 'x' :: l)) = some (hexCharsVal l) := by
  unfold int16?
  have hdata : (String.mk ('0' :: 'x' :: l)).data = '0' :: 'x' :: l := rfl
  rw [hdata, strip0x_0x]
  rw [if_pos ⟨by intro h; rw [h] at hlen; simp at hlen, lowerHexString_all_hex l hmem⟩]

theorem isHexDigitChar_lowerChar (c : Char) (h : isHexDigitChar c = true) :
    isHexDigitChar (lowerChar c) = true := by
  simp only [isHexDigitChar, Bool.or_eq_true, Bool.and_eq_true, decide_eq_true_eq] at h ⊢
  unfold lowerChar
  by_cases hu : 65 ≤ c.toNat ∧ c.toNat ≤ 90
  · rw [if_pos hu, charToNat_ofNat _ (by omega)]
    omega
  · rw [if_neg hu]
    exact h

/-- `to_checksum` succeeds on every string `is_address` accepts. -/
theorem to_checksum_isSome_of_is_address (a : String) (h : is_address a = true) :
    ∃ s, to_checksum a = some s := by
  unfold is_address at h
  by_cases hf : is_checksum_formatted a.data = true
  · rw [if_pos hf] at h
    unfold is_checksum_address at h
    have hbeq := (Bool.and_eq_true _ _).mp h |>.2
    have := eq_of_beq hbeq
    exact ⟨a, this⟩
  · rw [if_neg hf] at h
    unfold is_hex_address at h
    have hlen := (Bool.and_eq_true _ _).mp h |>.1
    have hall := (Bool.and_eq_true _ _).mp h |>.2
    unfold to_checksum to_checksum_address
    rw [if_pos ?_]
    · exact ⟨_, rfl⟩
    · rw [Bool.and_eq_true]
      constructor
      · simp only [List.length_map]
        exact hlen
      · rw [List.all_eq_true] at hall ⊢
        intro c hc
        obtain ⟨c0, hc0, rfl⟩ := List.mem_map.mp hc
        exact isHexDigitChar_lowerChar c0 (hall c0 hc0)

/-- Hex folding over the rendered bytes equals base-256 folding over the
bytes themselves. -/
theorem hexfold_bytesHexChars (bs : List Nat) (hb : ∀ b ∈ bs, b < 256) :
    ∀ a, (bytesHexChars bs).foldl (fun x c => x * 16 + hexCharVal c) a =
      bs.foldl (fun x b => x * 256 + b) a := by
  induction bs with
  | nil => intro a; rfl
  | cons b rest ih =>
    intro a
    have hb0 : b < 256 := hb b (by simp)
    rw [bytesHexChars_cons, List.foldl_append]
    have h1 : hexCharVal (hexDigitChar (b / 16 % 16)) = b / 16 % 16 :=
      (hexDigitChar_spec _ (Nat.mod_lt _ (by omega))).2.2
    have h2 : hexCharVal (hexDigitChar (b % 16)) = b % 16 :=
      (hexDigitChar_spec _ (Nat.mod_lt _ (by omega))).2.2
    simp only [byteHexChars, List.foldl_cons, List.foldl_nil, h1, h2]
    rw [ih (fun x hx => hb x (by simp [hx]))]
    congr 1
    omega

theorem hexCharsVal_bytesHexChars (bs : List Nat) (hb : ∀ b ∈ bs, b < 256) :
    hexCharsVal (bytesHexChars bs) = natOfBytesBE bs :=
  hexfold_bytesHexChars bs hb 0

/-- C4: for every 32-byte raw storage value, the extraction takes exactly
the low-order 20 bytes rendered in hex; the candidate is accepted
(non-`none`) exactly when it is non-zero (such a candidate is always
syntactically valid, so validity plus non-zeroness is the acceptance
condition); and the all-zero raw value is always treated as absent. -/
theorem c4_low20_extraction (raw : List Nat) (h32 : raw.length = 32)
    (hb : ∀ b ∈ raw, b < 256) :
    extractLow20Hex raw = String.mk ('0' :: 'x' :: bytesHexChars (raw.drop 12)) ∧
    is_address (extractLow20Hex raw) = true ∧
    (accept_nonzero_address (extractLow20Hex raw) = none ↔
      natOfBytesBE (raw.drop 12) = 0) ∧
    accept_nonzero_address (extractLow20Hex (List.replicate 32 0)) = none := by
  have hdlen : (raw.drop 12).length = 20 := by simp [h32]
  have hdb : ∀ b ∈ raw.drop 12, b < 256 := fun b hbm => hb b (List.mem_of_mem_drop hbm)
  have hhlen : (bytesHexChars (raw.drop 12)).length = 40 := by
    rw [bytesHexChars_length, hdlen]
  have hext : extractLow20Hex raw =
      String.mk ('0' :: 'x' :: bytesHexChars (raw.drop 12)) := by
    unfold extractLow20Hex
    have hsplit : raw = raw.take 12 ++ raw.drop 12 := (List.take_append_drop 12 raw).symm
    have htlen : (bytesHexChars (raw.take 12)).length = 24 := by
      rw [bytesHexChars_length, List.length_take]
      omega
    rw [show bytesHexChars raw = bytesHexChars (raw.take 12) ++ bytesHexChars (raw.drop 12) by
      conv_lhs => rw [hsplit]
      exact bytesHexChars_append _ _]
    simp only [List.length_append, htlen, hhlen]
    norm_num
    rw [show (24 : Nat) = (bytesHexChars (raw.take 12)).length from htlen.symm,
        List.drop_left]
  have hmem := bytesHexChars_mem (raw.drop 12)
  have haddr : is_address (extractLow20Hex raw) = true := by
    rw [hext]
    exact is_address_of_lower_hex40 _ hhlen hmem
  refine ⟨hext, haddr, ?_, ?_⟩
  · rw [hext]
    unfold accept_nonzero_address
    rw [hext] at haddr
    rw [haddr, if_pos rfl, int16_of_lower_hex40 _ hhlen hmem,
        hexCharsVal_bytesHexChars _ hdb]
    by_cases hz : natOfBytesBE (raw.drop 12) = 0
    · simp [hz]
    · simp only [hz, if_pos, ne_eq, not_false_iff, if_true]
      obtain ⟨s, hs⟩ := to_checksum_isSome_of_is_address _
        (is_address_of_lower_hex40 _ hhlen hmem)
      simp [hz, hs]
  · decide

def c4raw : List Nat :=
  [0, 0, 0, 0, 0, 0, 0, 0, 0, 0, 0, 0,
   0, 0, 0, 0, 0, 0, 0, 0, 0, 0, 0, 0, 0, 0, 0, 0, 0, 0, 0xde, 0xad]

theorem c4_witness :
    c4raw.length = 32 ∧
    (accept_nonzero_address (extractLow20Hex c4raw) = none ↔
      natOfBytesBE (c4raw.drop 12) = 0) :=
  ⟨by decide, (c4_low20_extraction c4raw (by decide) (by decide)).2.2.1⟩

/-! ### Checksum idempotence -/

theorem keccak256_length (msg : List Nat) : (keccak256 msg).length = 32 := by
  simp [keccak256]

theorem bytesNibbles_cons (b : Nat) (bs : List Nat) :
    bytesNibbles (b :: bs) = b / 16 % 16 :: b % 16 :: bytesNibbles bs := rfl

theorem bytesNibbles_length (bs : List Nat) :
    (bytesNibbles bs).length = 2 * bs.length := by
  induction bs with
  | nil => rfl
  | cons b rest ih => rw [bytesNibbles_cons]; simp [ih]; omega

theorem zipWith_case_recover (hs : List Nat) (u : List Char)
    (hlen : u.length ≤ hs.length)
    (hrec : ∀ c ∈ u, lowerChar c = c ∧ lowerChar (upperChar c) = c) :
    (List.zipWith (fun h c => if 8 ≤ h then upperChar c else c) hs u).map lowerChar
      = u := by
  induction hs generalizing u with
  | nil =>
    cases u with
    | nil => rfl
    | cons c cs => simp at hlen
  | cons h hs ih =>
    cases u with
    | nil => rfl
    | cons c cs =>
      simp only [List.zipWith_cons_cons, List.map_cons]
      have hc := hrec c (by simp)
      congr 1
      · by_cases h8 : 8 ≤ h
        · rw [if_pos h8]; exact hc.2
        · rw [if_neg h8]; exact hc.1
      · exact ih cs (by simpa using hlen) (fun d hdm => hrec d (by simp [hdm]))

/-- C9: EIP-55 checksum encoding is idempotent — applying `to_checksum`
to an already-checksummed address returns the identical string. -/
theorem c9_checksum_idempotent (a s : String) (h : to_checksum a = some s) :
    to_checksum s = some s := by
  unfold to_checksum to_checksum_address at h
  by_cases hc : (((strip0x a.data).map lowerChar).length == 40 &&
      ((strip0x a.data).map lowerChar).all isHexDigitChar) = true
  case neg => rw [if_neg hc] at h; exact absurd h (by simp)
  case pos =>
  rw [if_pos hc] at h
  have hs : s = String.mk ('0' :: 'x' ::
      List.zipWith (fun h c => if 8 ≤ h then upperChar c else c)
        (bytesNibbles (keccak256 ((((strip0x a.data).map lowerChar)).map Char.toNat)))
        ((strip0x a.data).map lowerChar)) := by
    injection h with h2
    exact h2.symm
  obtain ⟨hlen40, _⟩ := Bool.and_eq_true _ _ |>.mp hc
  have hurec : ∀ c ∈ (strip0x a.data).map lowerChar,
      lowerChar c = c ∧ lowerChar (upperChar c) = c := by
    intro c hcm
    obtain ⟨c0, _, rfl⟩ := List.mem_map.mp hcm
    have hnu := lowerChar_not_upper c0
    exact ⟨lowerChar_fix _ hnu, lower_upper_cancel _ hnu⟩
  have hwlen : ((strip0x a.data).map lowerChar).length ≤
      (bytesNibbles (keccak256 ((((strip0x a.data).map lowerChar)).map Char.toNat))).length := by
    rw [bytesNibbles_length, keccak256_length]
    have h40 : ((strip0x a.data).map lowerChar).length = 40 := by simpa using hlen40
    omega
  have hmaplower := zipWith_case_recover _ _ hwlen hurec
  have hsdata : s.data = '0' :: 'x' ::
      List.zipWith (fun h c => if 8 ≤ h then upperChar c else c)
        (bytesNibbles (keccak256 ((((strip0x a.data).map lowerChar)).map Char.toNat)))
        ((strip0x a.data).map lowerChar) := by rw [hs]
  unfold to_checksum to_checksum_address
  rw [hsdata, strip0x_0x, hmaplower, if_pos hc, hs]

theorem c9_witness :
    to_checksum "0x742d35cc6634c0532925a3b844bc454e4438f44e" =
      some "0x742d35Cc6634C0532925a3b844Bc454e4438f44e" ∧
    to_checksum "0x742d35Cc6634C0532925a3b844Bc454e4438f44e" =
      some "0x742d35Cc6634C0532925a3b844Bc454e4438f44e" := by
  have h1 : to_checksum "0x742d35cc6634c0532925a3b844bc454e4438f44e" =
      some "0x742d35Cc6634C0532925a3b844Bc454e4438f44e" := by decide
  exact ⟨h1, c9_checksum_idempotent _ _ h1⟩

/-! ### The probe loop -/

theorem probe_loop_none_all (o : ChainOracle) (t : String) :
    ∀ ms : List String, (∀ m ∈ ms, probe_result o t m = none) →
      probe_loop o t ms = (none, ms.map (Ev.ethCall t)) := by
  intro ms
  induction ms with
  | nil => intro _; rfl
  | cons m rest ih =>
    intro h
    have hm := h m (by simp)
    have hrest := ih (fun m' hm' => h m' (by simp [hm']))
    unfold probe_result at hm
    unfold probe_loop
    cases hcall : o.ethCall t m with
    | error e => simp [hcall, hrest]
    | ok w =>
      rw [hcall] at hm
      simp at hm
      simp [hcall, hm, hrest]

theorem probe_loop_first_found (o : ChainOracle) (t : String) :
    ∀ (ms1 : List String) (m : String) (ms2 : List String) (cs : String),
      (∀ m' ∈ ms1, probe_result o t m' = none) →
      probe_result o t m = some cs →
      probe_loop o t (ms1 ++ m :: ms2) =
        (some (m, cs), (ms1 ++ [m]).map (Ev.ethCall t)) := by
  intro ms1
  induction ms1 with
  | nil =>
    intro m ms2 cs _ h2
    unfold probe_result at h2
    simp only [List.nil_append]
    unfold probe_loop
    cases hcall : o.ethCall t m with
    | error e => rw [hcall] at h2; simp at h2
    | ok w =>
      rw [hcall] at h2
      simp at h2
      simp [hcall, h2]
  | cons m0 rest ih =>
    intro m ms2 cs h1 h2
    have hm0 := h1 m0 (by simp)
    have hrest := ih m ms2 cs (fun m' hm' => h1 m' (by simp [hm'])) h2
    unfold probe_result at hm0
    simp only [List.cons_append]
    unfold probe_loop
    cases hcall : o.ethCall t m0 with
    | error e => simp [hcall, hrest]
    | ok w =>
      rw [hcall] at hm0
      simp at hm0
      simp [hcall, hm0, hrest]

theorem probe_loop_trace_targets (o : ChainOracle) (t : String) :
    ∀ ms : List String, ∀ e ∈ (probe_loop o t ms).2, ∃ mm, e = Ev.ethCall t mm := by
  intro ms
  induction ms with
  | nil => intro e he; simp [probe_loop] at he
  | cons m rest ih =>
    intro e he
    unfold probe_loop at he
    cases hcall : o.ethCall t m with
    | error e2 =>
      rw [hcall] at he
      simp only [List.mem_cons] at he
      rcases he with rfl | hmem
      · exact ⟨m, rfl⟩
      · exact ih e hmem
    | ok w =>
      rw [hcall] at he
      simp only [] at he
      cases hacc : accept_nonzero_address w with
      | some cs =>
        rw [hacc] at he
        simp only [List.mem_singleton] at he
        exact ⟨m, he⟩
      | none =>
        rw [hacc] at he
        simp only [List.mem_cons] at he
        rcases he with rfl | hmem
        · exact ⟨m, rfl⟩
        · exact ih e hmem

/-- C2: the owner prober tries the methods in the fixed order
`owner, getOwner, admin, getAdmin`; a call's result is accepted only if
it is a syntactically valid non-zero address (then checksummed); the
first acceptance short-circuits, so later methods are never invoked —
in particular, when both `owner()` and `getOwner()` would return valid
owners, the result is `owner()`'s and the trace shows `getOwner()` was
never called; a failing or rejected method is skipped and the next one
tried; if no method yields a valid address the prober yields `none`
after calling all four. -/
theorem c2_owner_probe (o : ChainOracle) (t : String) :
    probe_methods = ["owner", "getOwner", "admin", "getAdmin"] ∧
    (∀ w cs, accept_nonzero_address w = some cs →
      is_address w = true ∧ ∃ n, int16? w = some n ∧ n ≠ 0 ∧ to_checksum w = some cs) ∧
    (∀ ms1 m ms2 cs, probe_methods = ms1 ++ m :: ms2 →
      (∀ m' ∈ ms1, probe_result o t m' = none) →
      probe_result o t m = some cs →
      probe_loop o t probe_methods = (some (m, cs), (ms1 ++ [m]).map (Ev.ethCall t))) ∧
    (∀ cs cs2, probe_result o t "owner" = some cs →
      probe_result o t "getOwner" = some cs2 →
      probe_loop o t probe_methods = (some ("owner", cs), [Ev.ethCall t "owner"])) ∧
    ((∀ m ∈ probe_methods, probe_result o t m = none) →
      probe_loop o t probe_methods = (none, probe_methods.map (Ev.ethCall t))) := by
  refine ⟨rfl, ?_, ?_, ?_, ?_⟩
  · intro w cs hacc
    unfold accept_nonzero_address at hacc
    by_cases hv : is_address w = true
    · rw [if_pos hv] at hacc
      cases hint : int16? w with
      | none => rw [hint] at hacc; simp at hacc
      | some n =>
        rw [hint] at hacc
        simp only [] at hacc
        by_cases hn : n ≠ 0
        · rw [if_pos hn] at hacc
          exact ⟨hv, n, rfl, hn, hacc⟩
        · rw [if_neg hn] at hacc; simp at hacc
    · rw [if_neg hv] at hacc; simp at hacc
  · intro ms1 m ms2 cs hsplit h1 h2
    rw [hsplit]
    exact probe_loop_first_found o t ms1 m ms2 cs h1 h2
  · intro cs cs2 h1 _
    have h := probe_loop_first_found o t [] "owner" ["getOwner", "admin", "getAdmin"] cs
      (by intro m' hm'; simp at hm') h1
    simpa using h
  · exact probe_loop_none_all o t probe_methods

/-- A contract answering both `owner()` and `getOwner()` with a valid
non-zero address, all other methods reverting. -/
def dualOwnerOracle : ChainOracle where
  conn := fun _ => false
  storage := fun _ _ => .error "unreachable"
  ethCall := fun _ m =>
    if m = "owner" ∨ m = "getOwner" then
      .ok "0x742d35cc6634c0532925a3b844bc454e4438f44e"
    else .error "execution reverted"

theorem c2_witness :
    probe_result dualOwnerOracle "0xc" "owner" =
      some "0x742d35Cc6634C0532925a3b844Bc454e4438f44e" ∧
    probe_result dualOwnerOracle "0xc" "getOwner" =
      some "0x742d35Cc6634C0532925a3b844Bc454e4438f44e" ∧
    probe_loop dualOwnerOracle "0xc" probe_methods =
      (some ("owner", "0x742d35Cc6634C0532925a3b844Bc454e4438f44e"),
       [Ev.ethCall "0xc" "owner"]) := by
  have h1 : probe_result dualOwnerOracle "0xc" "owner" =
      some "0x742d35Cc6634C0532925a3b844Bc454e4438f44e" := by decide
  have h2 : probe_result dualOwnerOracle "0xc" "getOwner" =
      some "0x742d35Cc6634C0532925a3b844Bc454e4438f44e" := by decide
  exact ⟨h1, h2, (c2_owner_probe dualOwnerOracle "0xc").2.2.2.1 _ _ h1 h2⟩

/-! ### Trace and error-propagation facts about the transport -/

theorem try_endpoints_filter_ethcall (o : ChainOracle) :
    ∀ (urls : List String) (ctr : Nat),
      ((try_endpoints o urls ctr).2.2).filter isEthCallEv = [] := by
  intro urls
  induction urls with
  | nil => intro ctr; rfl
  | cons u rest ih =>
    intro ctr
    unfold try_endpoints
    cases hc : o.conn ctr
    · simp [hc, isEthCallEv, ih (ctr + 1)]
    · simp [hc, isEthCallEv]

theorem retryLoop_filter_ethcall {ε α : Type} (f : Nat → Except ε α × Nat × List Ev)
    (delay maxR : Nat)
    (hf : ∀ c, ((f c).2.2).filter isEthCallEv = []) :
    ∀ (l : List Nat) (last : Option ε) (ctr : Nat),
      ((retryLoop f delay maxR l last ctr).2.2.1).filter isEthCallEv = [] := by
  intro l
  induction l with
  | nil => intro last ctr; rfl
  | cons att rest ih =>
    intro last ctr
    unfold retryLoop
    rcases hfc : f ctr with ⟨r, c, ev⟩
    have hev := hf ctr
    rw [hfc] at hev
    simp only [] at hev
    cases r with
    | ok a => simpa [hfc] using hev
    | error e2 =>
      simp only [hfc]
      rw [List.filter_append, List.filter_append, hev, ih (some e2) c]
      by_cases hs : att < maxR - 1
      · simp [hs, isEthCallEv]
      · simp [hs]

theorem get_web3_filter_ethcall (o : ChainOracle) (ctr : Nat) :
    ((get_web3 o ctr).2.2.1).filter isEthCallEv = [] := by
  unfold get_web3 retry_on_failure
  apply retryLoop_filter_ethcall
  intro c
  unfold get_web3_once
  rcases hte : try_endpoints o PUBLIC_RPCS c with ⟨r, c2, ev⟩
  have hev := try_endpoints_filter_ethcall o PUBLIC_RPCS c
  rw [hte] at hev
  simp only [] at hev
  cases r with
  | none => simpa using hev
  | some u => simpa using hev

theorem retryLoop_error_msg {ε α : Type} (f : Nat → Except ε α × Nat × List Ev)
    (delay maxR : Nat) (msg : ε)
    (hf : ∀ c e, (f c).1 = .error e → e = msg) :
    ∀ (l : List Nat) (last : Option ε) (ctr : Nat) (e : Option ε), l ≠ [] →
      (retryLoop f delay maxR l last ctr).1 = .error e → e = some msg := by
  intro l
  induction l with
  | nil => intro last ctr e h; exact absurd rfl h
  | cons att rest ih =>
    intro last ctr e _ herr
    unfold retryLoop at herr
    rcases hfc : f ctr with ⟨r, c, ev⟩
    rw [hfc] at herr
    cases r with
    | ok a => simp at herr
    | error e2 =>
      have he2 : e2 = msg := hf ctr e2 (by rw [hfc])
      simp only [] at herr
      cases rest with
      | nil =>
        simp [retryLoop] at herr
        rw [← herr, he2]
      | cons b bs =>
        exact ih (some e2) c e (by simp) herr

theorem get_web3_error_msg (o : ChainOracle) (ctr : Nat) (e : Option String)
    (h : (get_web3 o ctr).1 = .error e) :
    e = some "Unable to connect to any Ethereum RPC endpoint" := by
  refine retryLoop_error_msg (get_web3_once o) 1 DEFAULT_MAX_RETRIES _ ?_
    (List.range DEFAULT_MAX_RETRIES) none ctr e (by decide) h
  intro c e2 h2
  unfold get_web3_once at h2
  rcases hte : try_endpoints o PUBLIC_RPCS c with ⟨r, c2, ev⟩
  rw [hte] at h2
  cases r with
  | some u => simp at h2
  | none =>
    simp only [] at h2
    exact (Except.error.injEq _ _ |>.mp h2).symm

theorem snd_ite_pair {γ : Type} (c : Prop) [Decidable c] (x y : String) (ev : γ) :
    (if c then (x, ev) else (y, ev)).2 = ev := by
  by_cases h : c <;> simp [h]

theorem final_result_shape (L : List String) (ev : List Ev) :
    (if L = [] then
        ("Contract does not implement an Ownable interface or owner could not be read.",
         ev)
      else (String.intercalate "\n" L, ev)).1 =
      "Contract does not implement an Ownable interface or owner could not be read." ∨
    (∃ lines, lines ≠ [] ∧
      (if L = [] then
          ("Contract does not implement an Ownable interface or owner could not be read.",
           ev)
        else (String.intercalate "\n" L, ev)).1 = String.intercalate "\n" lines) := by
  by_cases h : L = []
  · left; simp [h]
  · right; exact ⟨L, h, by simp [h]⟩

/-- C8 amended: for every input and transport behaviour, the result text
of `check_contract_owner` is one of the four fixed messages (invalid
address; the outer handler's rendering of the transport failure, which
embeds the internal exception text "Unable to connect to any Ethereum
RPC endpoint" verbatim; not-connected; owner-not-discoverable) or the
newline-join of a nonempty report.  The original claim's "never contains
an internal exception's message verbatim" fails on the transport-failure
message, which is exactly `"Error checking contract owner: " ++ str(e)`. -/
theorem c8_failure_messages (o : ChainOracle) (a : String) :
    (check_contract_owner o a).1 = "Invalid contract address." ∨
    (check_contract_owner o a).1 =
      "Error checking contract owner: Unable to connect to any Ethereum RPC endpoint" ∨
    (check_contract_owner o a).1 = "Error: Cannot connect to Ethereum network." ∨
    (check_contract_owner o a).1 =
      "Contract does not implement an Ownable interface or owner could not be read." ∨
    (∃ lines, lines ≠ [] ∧
      (check_contract_owner o a).1 = String.intercalate "\n" lines) := by
  by_cases hv : is_address a = false
  · left
    simp [check_contract_owner, hv]
  · have hv' : is_address a = true := by
      cases h : is_address a
      · exact absurd h hv
      · rfl
    rcases hw : get_web3 o 0 with ⟨r, c1, ev0, k⟩
    cases r with
    | error e =>
      right; left
      have he := get_web3_error_msg o 0 e (by rw [hw])
      simp [check_contract_owner, hv', hw, he]
    | ok w3 =>
      cases hcn : o.conn c1 with
      | false =>
        right; right; left
        simp [check_contract_owner, hv', hw, hcn]
      | true =>
        obtain ⟨proxy, hpx⟩ := to_checksum_isSome_of_is_address a hv'
        have hro : ∀ addr c, read_owner_slot o addr c =
            (.ok (ownerSlotValue o addr), c, [Ev.storageRead addr 0], 1) :=
          fun addr c =>
            retry_first_ok _ _ _ _ _ _ _ (by decide) (read_owner_slot_once_eq o addr c)
        have heip : ∀ c, get_eip1967_impl o proxy c =
            (.ok (eipImplValue o proxy), c, [Ev.storageRead proxy eip1967_slot], 1) :=
          fun c =>
            retry_first_ok _ _ _ _ _ _ _ (by decide) (get_eip1967_impl_once_eq o proxy c)
        unfold check_contract_owner
        rw [if_neg (by simp [hv'] : ¬is_address a = false), hw]
        simp only []
        rw [if_neg (by simp [hcn] : ¬o.conn c1 = false), hpx]
        simp only []
        rw [hro proxy (c1 + 1)]
        simp only []
        rw [heip (c1 + 1)]
        simp only []
        cases himpl : eipImplValue o proxy with
        | some impl =>
          simp only []
          rw [hro impl (c1 + 1)]
          simp only []
          right; right; right
          exact final_result_shape _ _
        | none =>
          simp only []
          right; right; right
          exact final_result_shape _ _

/-- C8 (as stated, false): with every endpoint unreachable, the
user-visible text is the outer handler's
`"Error checking contract owner: " ++ str(e)` — it embeds the internal
transport exception's message verbatim and is none of the three
stage-specific messages. -/
theorem c8_counterexample :
    (check_contract_owner stubOracle "0x742d35cc6634c0532925a3b844bc454e4438f44e").1 =
      "Error checking contract owner: " ++
        "Unable to connect to any Ethereum RPC endpoint" ∧
    (check_contract_owner stubOracle "0x742d35cc6634c0532925a3b844bc454e4438f44e").1 ≠
      "Invalid contract address." ∧
    (check_contract_owner stubOracle "0x742d35cc6634c0532925a3b844bc454e4438f44e").1 ≠
      "Error: Cannot connect to Ethereum network." ∧
    (check_contract_owner stubOracle "0x742d35cc6634c0532925a3b844bc454e4438f44e").1 ≠
      "Contract does not implement an Ownable interface or owner could not be read." := by
  refine ⟨by decide, by decide, by decide, by decide⟩

/-- C3: in a run of `check_contract_owner` on a valid address with a
working transport, if an EIP-1967 implementation is resolved then the
implementation's slot-0 owner is read (`storageRead impl 0` is in the
trace) and the owner-method probe runs against the implementation
address (the run's `eth_call` events are exactly the probe's trace at
the implementation, all targeting it); if no implementation is resolved,
the probe runs against the original checksummed input address instead. -/
theorem c3_probe_target (o : ChainOracle) (a w3 proxy : String) (c1 k : Nat)
    (ev0 : List Ev)
    (h1 : is_address a = true)
    (h2 : get_web3 o 0 = (.ok w3, c1, ev0, k))
    (h3 : o.conn c1 = true)
    (h4 : to_checksum a = some proxy) :
    (∀ impl, eipImplValue o proxy = some impl →
      Ev.storageRead impl 0 ∈ (check_contract_owner o a).2 ∧
      (check_contract_owner o a).2.filter isEthCallEv =
        (probe_loop o impl probe_methods).2 ∧
      ∀ e ∈ (probe_loop o impl probe_methods).2, ∃ mm, e = Ev.ethCall impl mm) ∧
    (eipImplValue o proxy = none →
      (check_contract_owner o a).2.filter isEthCallEv =
        (probe_loop o proxy probe_methods).2 ∧
      ∀ e ∈ (probe_loop o proxy probe_methods).2, ∃ mm, e = Ev.ethCall proxy mm) := by
  have hro : ∀ addr c, read_owner_slot o addr c =
      (.ok (ownerSlotValue o addr), c, [Ev.storageRead addr 0], 1) :=
    fun addr c =>
      retry_first_ok _ _ _ _ _ _ _ (by decide) (read_owner_slot_once_eq o addr c)
  have heip : ∀ c, get_eip1967_impl o proxy c =
      (.ok (eipImplValue o proxy), c, [Ev.storageRead proxy eip1967_slot], 1) :=
    fun c =>
      retry_first_ok _ _ _ _ _ _ _ (by decide) (get_eip1967_impl_once_eq o proxy c)
  have hev0 : ev0.filter isEthCallEv = [] := by
    have h := get_web3_filter_ethcall o 0
    rw [h2] at h
    simpa using h
  have hprfilter : ∀ t, (probe_loop o t probe_methods).2.filter isEthCallEv =
      (probe_loop o t probe_methods).2 := by
    intro t
    apply List.filter_eq_self.mpr
    intro e he
    obtain ⟨mm, rfl⟩ := probe_loop_trace_targets o t probe_methods e he
    rfl
  constructor
  · intro impl himpl
    unfold check_contract_owner
    rw [if_neg (by simp [h1] : ¬is_address a = false), h2]
    simp only []
    rw [if_neg (by simp [h3] : ¬o.conn c1 = false), h4]
    simp only []
    rw [hro proxy (c1 + 1)]
    simp only []
    rw [heip (c1 + 1)]
    simp only []
    rw [himpl]
    simp only []
    rw [hro impl (c1 + 1)]
    simp only []
    rw [snd_ite_pair]
    refine ⟨by simp, ?_, probe_loop_trace_targets o impl probe_methods⟩
    simp [List.filter_append, hev0, isEthCallEv, hprfilter impl]
  · intro himpl
    unfold check_contract_owner
    rw [if_neg (by simp [h1] : ¬is_address a = false), h2]
    simp only []
    rw [if_neg (by simp [h3] : ¬o.conn c1 = false), h4]
    simp only []
    rw [hro proxy (c1 + 1)]
    simp only []
    rw [heip (c1 + 1)]
    simp only []
    rw [himpl]
    simp only []
    rw [snd_ite_pair]
    refine ⟨?_, probe_loop_trace_targets o proxy probe_methods⟩
    simp [List.filter_append, hev0, isEthCallEv, hprfilter proxy]

def c3addr : String := "0x742d35cc6634c0532925a3b844bc454e4438f44e"
def c3proxy : String := "0x742d35Cc6634C0532925a3b844Bc454e4438f44e"
def c3impl : String := "0x000000000000000000000000000000000000dEaD"

/-- A proxy whose EIP-1967 slot holds `…dead` and whose slot-0 reads
revert; every `eth_call` reverts. -/
def c3Oracle : ChainOracle where
  conn := fun _ => true
  storage := fun _ slot => if slot = 0 then .error "revert" else .ok c4raw
  ethCall := fun _ _ => .error "revert"

theorem c3_witness :
    is_address c3addr = true ∧
    to_checksum c3addr = some c3proxy ∧
    eipImplValue c3Oracle c3proxy = some c3impl ∧
    Ev.storageRead c3impl 0 ∈ (check_contract_owner c3Oracle c3addr).2 ∧
    (check_contract_owner c3Oracle c3addr).2.filter isEthCallEv =
      (probe_loop c3Oracle c3impl probe_methods).2 := by
  have h1 : is_address c3addr = true := by decide
  have h4 : to_checksum c3addr = some c3proxy := by decide
  have himpl : eipImplValue c3Oracle c3proxy = some c3impl := by decide
  have h := (c3_probe_target c3Oracle c3addr "https://eth.llamarpc.com" c3proxy 1 1
    [Ev.liveCheck "https://eth.llamarpc.com" true] h1 rfl rfl h4).1 c3impl himpl
  exact ⟨h1, h4, himpl, h.1, h.2.1⟩

end MCPBlockchain
